import Mathlib

/-!
Verification development for the `mcmeta` download module
(`src/mcmeta/src/download/mojang.rs`).

The module exposes three operations built as fetch → parse → validate
pipelines:

* `load_manifest` — fetches the top-level Mojang version manifest from a
  configurable URL;
* `load_version_manifest` — fetches a single version document from a URL;
* `load_zipped_version` — downloads a zip archive into a fresh temporary
  directory, opens it, and extracts a version document from its entries.

The embedding below is a shallow model of that Rust code.  Network traffic is
modelled by a function from URLs to optional HTTP responses, JSON parsing by
an explicit parse function passed as a parameter (`serde_json` is external to
the crate), and the archive by a list of named entries.  The temporary
directory owned by `load_zipped_version` (a `tempdir::TempDir` guard whose
destructor removes the directory on every exit path, including unwinding
after a panic) is modelled by explicit state in the returned trace.
-/

/-- Modelled from the spec: the version-document type `MinecraftVersion` lives
in the external `libmcmeta` crate, whose source is not under `src/`.  The spec
treats it as an opaque validated payload, so it is modelled as an opaque
identifier together with the truth value of its semantic constraints. -/
structure MinecraftVersion where
  id : String
  semValid : Bool
deriving DecidableEq

/-- Modelled from the spec: `serde_valid`'s semantic validation of a version
document ("must satisfy the schema's structural and semantic constraints").
It succeeds exactly when the document's semantic constraints hold. -/
def MinecraftVersion.validate (m : MinecraftVersion) : Bool := m.semValid

/-- Modelled from the spec: the manifest type `MojangVersionManifest` lives in
the external `libmcmeta` crate; like `MinecraftVersion` it is modelled as an
opaque payload plus the truth value of its semantic constraints. -/
structure MojangVersionManifest where
  payload : String
  semValid : Bool
deriving DecidableEq

/-- Modelled from the spec: semantic validation of the manifest (for example,
the required latest-release pointer being present). -/
def MojangVersionManifest.validate (m : MojangVersionManifest) : Bool := m.semValid

/-- Error taxonomy of the download module, following `anyhow` error values the
Rust code can return.  `malformedBody` models `MetadataError::from_json_err`
from `crate::download::errors` (that file is not under `src/`; the spec says it
retains the offending raw body, which is the second field here).  `notFound`
models the `anyhow!` error raised when no version document is found in the
archive. -/
inductive FetchError where
  | transport
  | httpStatus (code : Nat)
  | malformedBody (msg : String) (rawBody : String)
  | validation
  | ioError (msg : String)
  | archiveFormat (msg : String)
  | notFound (msg : String)
deriving DecidableEq

/-- Tests whether an error is the HTTP-status kind. -/
def FetchError.isHttpStatus : FetchError → Bool
  | .httpStatus _ => true
  | _ => false

/-- Tests whether an error is the malformed-body kind. -/
def FetchError.isMalformedBody : FetchError → Bool
  | .malformedBody _ _ => true
  | _ => false

/-- An HTTP response as observed by the Rust code after redirects: its status
code, its text body, and the path segments of the resolved URL.
`urlPathSegments = none` models a URL for which `Url::path_segments` returns
`None` (a cannot-be-a-base URL); otherwise the list holds the segments in
order, as produced by the `url` crate. -/
structure HttpResponse where
  status : Nat
  body : String
  urlPathSegments : Option (List String)
deriving DecidableEq

/-- Models `reqwest::Response::error_for_status`: it errors exactly when the
status is a client error (400–499) or a server error (500–599), and otherwise
passes the response through unchanged. -/
def errorForStatus (resp : HttpResponse) : Except FetchError HttpResponse :=
  if 400 ≤ resp.status ∧ resp.status ≤ 599 then
    .error (.httpStatus resp.status)
  else
    .ok resp

/-- The hard-coded default manifest URL (`default_download_url` in the Rust
source). -/
def default_download_url : String :=
  "https://piston-meta.mojang.com/mc/game/version_manifest_v2.json"

/-- The `DownloadConfig` struct: one field, the manifest URL. -/
structure DownloadConfig where
  manifest_url : String
deriving DecidableEq

/-- Models `DownloadConfig::from_config`: the `MCMETA_MOJANG`-prefixed
environment may supply a manifest URL; absent that, the serde default
`default_download_url` applies.  The environment binding is modelled as the
optional value of that one recognized setting. -/
def DownloadConfig.from_config (env : Option String) : DownloadConfig :=
  ⟨env.getD default_download_url⟩

/-- Models Rust's `str::ends_with` (used as `zfile.name().ends_with(".json")`):
a case-sensitive suffix test on the character sequence. -/
def ends_with (s suff : String) : Bool := suff.data.isSuffixOf s.data

/-- Embedding of `load_manifest`.  `parse` models
`serde_json::from_str::<MojangVersionManifest>`; `env` the process
environment; `net` the network (`None` is a transport failure).  The Rust
pipeline is: GET the configured URL, `error_for_status`, take the text body,
parse (wrapping a parse error with `MetadataError::from_json_err(err, &body)`),
then `manifest.validate()?`. -/
def load_manifest (parse : String → Except String MojangVersionManifest)
    (env : Option String) (net : String → Option HttpResponse) :
    Except FetchError MojangVersionManifest :=
  match net (DownloadConfig.from_config env).manifest_url with
  | none => .error .transport
  | some resp =>
    match errorForStatus resp with
    | .error e => .error e
    | .ok resp =>
      match parse resp.body with
      | .error err => .error (.malformedBody err resp.body)
      | .ok manifest =>
        if manifest.validate then .ok manifest else .error .validation

/-- Embedding of `load_version_manifest`: the same pipeline as `load_manifest`
but for a caller-supplied `version_url` and the `MinecraftVersion` schema. -/
def load_version_manifest (parse : String → Except String MinecraftVersion)
    (version_url : String) (net : String → Option HttpResponse) :
    Except FetchError MinecraftVersion :=
  match net version_url with
  | none => .error .transport
  | some resp =>
    match errorForStatus resp with
    | .error e => .error e
    | .ok resp =>
      match parse resp.body with
      | .error err => .error (.malformedBody err resp.body)
      | .ok manifest =>
        if manifest.validate then .ok manifest else .error .validation

/-- One entry of the downloaded zip archive: its name and the result of
`ZipFile::read_to_string` on it.  `content = none` models a read that fails
(truncated data or bytes that are not valid UTF-8); `content = some s` models
a successful read yielding the text `s`. -/
structure ZipEntry where
  name : String
  content : Option String
deriving DecidableEq

/-- Outcome of the entry loop in `load_zipped_version`, lines 99–112: it may
finish normally carrying the `Option<MinecraftVersion>` accumulator, stop with
an error propagated by `?`, or panic (the `.unwrap()` on `read_to_string`). -/
inductive LoopOutcome where
  | done (acc : Option MinecraftVersion)
  | error (e : FetchError)
  | panicked
deriving DecidableEq

/-- Embedding of the `for i in 0..archive.len()` loop of `load_zipped_version`:
for each entry whose name ends with `".json"`, read it to a string (`.unwrap()`
panics when the read fails), parse it (wrapping a parse error with
`MetadataError::from_json_err(err, &contents)` and propagating it with `?`),
and overwrite the accumulator `manifest` with the parsed document. -/
def findVersionInArchive (parse : String → Except String MinecraftVersion) :
    List ZipEntry → Option MinecraftVersion → LoopOutcome
  | [], acc => .done acc
  | e :: rest, acc =>
    if ends_with e.name ".json" then
      match e.content with
      | none => .panicked
      | some contents =>
        match parse contents with
        | .error err => .error (.malformedBody err contents)
        | .ok m => findVersionInArchive parse rest (some m)
    else
      findVersionInArchive parse rest acc

/-- Result of `load_zipped_version`: a document, an error, or a panic. -/
inductive ZipOutcome where
  | ok (m : MinecraftVersion)
  | error (e : FetchError)
  | panicked
deriving DecidableEq

/-- Tests whether a zip outcome is an error value returned to the caller. -/
def ZipOutcome.isError : ZipOutcome → Bool
  | .error _ => true
  | _ => false

/-- Tests whether a zip outcome is a panic. -/
def ZipOutcome.isPanic : ZipOutcome → Bool
  | .panicked => true
  | _ => false

/-- Embedding of lines 99–114 of `load_zipped_version`: run the entry loop
starting from `manifest = None`; afterwards `manifest.ok_or(anyhow!("Unable to
find version manifest"))?` turns an empty accumulator into the not-found
error. -/
def load_zipped_version_core (parse : String → Except String MinecraftVersion)
    (entries : List ZipEntry) : ZipOutcome :=
  match findVersionInArchive parse entries none with
  | .panicked => .panicked
  | .error e => .error e
  | .done none => .error (.notFound "Unable to find version manifest")
  | .done (some m) => .ok m

/-- Models lines 77–86 of `load_zipped_version`: the destination filename is
`file_response.url().path_segments().and_then(|s| s.last()).and_then(|n| if
n.is_empty() { None } else { Some(n) }).unwrap_or("tmp.zip")`. -/
def dest_fname (resp : HttpResponse) : String :=
  ((resp.urlPathSegments.bind List.getLast?).bind
    fun name => if name = "" then none else some name).getD "tmp.zip"

/-- Observable trace of one `load_zipped_version` call: its result, whether
the call reached the `TempDir::new` point (so the temporary directory was
created), the name of the file written inside the temporary directory (if the
write happened), and whether the temporary directory still exists after the
call returns. -/
structure ZipCallTrace where
  result : ZipOutcome
  tmpDirCreated : Bool
  tmpFileName : Option String
  tmpDirExistsAfter : Bool
deriving DecidableEq

/-- Embedding of `load_zipped_version` with the temporary directory made
explicit.  `parse` models `serde_json::from_str::<MinecraftVersion>`;
`zipOpen` models `zip::ZipArchive::new` on the downloaded bytes, returning the
entries in archive order or a format error; `ioOk` models whether the local
file create/copy/reopen I/O succeeds; `net` models the network.  The Rust
`tmp_dir` is a `tempdir::TempDir` guard: its destructor removes the directory
on every exit path out of the function — the `?` early returns, the normal
return, and unwinding after the `.unwrap()` panic — so every branch reached
after its creation records `tmpDirExistsAfter = false`. -/
def load_zipped_version (parse : String → Except String MinecraftVersion)
    (zipOpen : String → Except String (List ZipEntry)) (ioOk : Bool)
    (version_url : String) (net : String → Option HttpResponse) : ZipCallTrace :=
  match net version_url with
  | none => ⟨.error .transport, false, none, false⟩
  | some resp =>
    match errorForStatus resp with
    | .error e => ⟨.error e, false, none, false⟩
    | .ok resp =>
      if ioOk then
        match zipOpen resp.body with
        | .error msg =>
          ⟨.error (.archiveFormat msg), true, some (dest_fname resp), false⟩
        | .ok entries =>
          ⟨load_zipped_version_core parse entries, true, some (dest_fname resp), false⟩
      else
        ⟨.error (.ioError "could not write archive to temporary file"), true,
          none, false⟩

/-- A concrete parse function for witnesses: every body parses, and the
resulting document records the body as its identifier and satisfies its
semantic constraints. -/
def parseId : String → Except String MinecraftVersion :=
  fun s => .ok ⟨s, true⟩

/-- A concrete parse function for witnesses: every body parses, but the
resulting document violates its semantic constraints. -/
def parseMarked : String → Except String MinecraftVersion :=
  fun s => .ok ⟨s, false⟩

/-- A concrete parse function for witnesses: the empty body fails to parse,
any other body parses to a semantically valid document. -/
def parseNonEmpty : String → Except String MinecraftVersion :=
  fun s => if s = "" then .error "EOF while parsing a value" else .ok ⟨s, true⟩

/-- A concrete manifest parse function for witnesses: every body parses to a
semantically valid manifest recording the body. -/
def parseManifestId : String → Except String MojangVersionManifest :=
  fun s => .ok ⟨s, true⟩

/-- A concrete manifest parse function for witnesses: nothing parses. -/
def parseManifestFail : String → Except String MojangVersionManifest :=
  fun _ => .error "expected value"

/-- A concrete manifest parse function for witnesses: every body parses, but
the resulting manifest violates its semantic constraints. -/
def parseManifestMarked : String → Except String MojangVersionManifest :=
  fun s => .ok ⟨s, false⟩

/-- When no entry of the archive has a `.json`-suffixed name, the entry loop
leaves the accumulator untouched. -/
lemma findVersionInArchive_no_json (parse : String → Except String MinecraftVersion)
    (entries : List ZipEntry) :
    ∀ acc : Option MinecraftVersion,
      (∀ e ∈ entries, ends_with e.name ".json" = false) →
      findVersionInArchive parse entries acc = .done acc := by
  induction entries with
  | nil => intro acc _; rfl
  | cons e rest ih =>
    intro acc h
    have he : ends_with e.name ".json" = false := h e (List.mem_cons_self e rest)
    simp only [findVersionInArchive, he, Bool.false_eq_true, if_false]
    exact ih acc fun x hx => h x (List.mem_cons_of_mem e hx)

/-- When every `.json`-suffixed entry before `e` reads and parses successfully,
`e` is a `.json`-suffixed entry parsing to `m`, and no entry after `e` is
`.json`-suffixed, the entry loop finishes with accumulator `some m`:
each qualifying entry overwrites the accumulator, so the last one wins. -/
lemma findVersionInArchive_append_last (parse : String → Except String MinecraftVersion)
    (e : ZipEntry) (s : String) (m : MinecraftVersion) (post : List ZipEntry)
    (he : ends_with e.name ".json" = true) (hc : e.content = some s)
    (hp : parse s = Except.ok m)
    (hpost : ∀ x ∈ post, ends_with x.name ".json" = false) :
    ∀ (pre : List ZipEntry) (acc : Option MinecraftVersion),
      (∀ x ∈ pre, ends_with x.name ".json" = true →
        ∃ t v, x.content = some t ∧ parse t = Except.ok v) →
      findVersionInArchive parse (pre ++ e :: post) acc = .done (some m) := by
  intro pre
  induction pre with
  | nil =>
    intro acc _
    simp only [List.nil_append, findVersionInArchive, he, if_true, hc, hp]
    exact findVersionInArchive_no_json parse post (some m) hpost
  | cons x pre ih =>
    intro acc hpre
    by_cases hx : ends_with x.name ".json" = true
    · obtain ⟨t, v, hct, hpv⟩ := hpre x (List.mem_cons_self x pre) hx
      simp only [List.cons_append, findVersionInArchive, hx, if_true, hct, hpv]
      exact ih (some v) fun y hy => hpre y (List.mem_cons_of_mem x hy)
    · simp only [List.cons_append, findVersionInArchive, Bool.not_eq_true (ends_with x.name ".json") ▸ hx, if_neg hx]
      exact ih acc fun y hy => hpre y (List.mem_cons_of_mem x hy)

/-- When the entry loop finishes with accumulator `some m`, either the
accumulator started as `some m`, or some `.json`-suffixed entry of the list
read to a string that parses to `m`. -/
lemma findVersionInArchive_done_some (parse : String → Except String MinecraftVersion)
    (entries : List ZipEntry) :
    ∀ (acc : Option MinecraftVersion) (m : MinecraftVersion),
      findVersionInArchive parse entries acc = .done (some m) →
      acc = some m ∨ ∃ e s, e ∈ entries ∧ ends_with e.name ".json" = true ∧
        e.content = some s ∧ parse s = Except.ok m := by
  induction entries with
  | nil =>
    intro acc m h
    left
    have h' : LoopOutcome.done acc = .done (some m) := h
    injection h'
  | cons e rest ih =>
    intro acc m h
    by_cases hx : ends_with e.name ".json" = true
    · cases hcont : e.content with
      | none =>
        simp only [findVersionInArchive, hx, if_true, hcont] at h
        exact absurd h (by simp)
      | some s =>
        cases hps : parse s with
        | error err =>
          simp only [findVersionInArchive, hx, if_true, hcont, hps] at h
          exact absurd h (by simp)
        | ok v =>
          simp only [findVersionInArchive, hx, if_true, hcont, hps] at h
          rcases ih (some v) m h with h1 | h2
          · right
            have hv : v = m := Option.some.inj h1
            exact ⟨e, s, List.mem_cons_self e rest, hx, hcont, hv ▸ hps⟩
          · obtain ⟨x, t, hmem, hxj, hxc, hxp⟩ := h2
            exact Or.inr ⟨x, t, List.mem_cons_of_mem e hmem, hxj, hxc, hxp⟩
    · rw [findVersionInArchive, if_neg hx] at h
      rcases ih acc m h with h1 | h2
      · exact Or.inl h1
      · obtain ⟨x, t, hmem, hxj, hxc, hxp⟩ := h2
        exact Or.inr ⟨x, t, List.mem_cons_of_mem e hmem, hxj, hxc, hxp⟩

/-- The temporary directory of `load_zipped_version` does not survive the
call, whatever the inputs: every branch of the function drops the `TempDir`
guard before returning. -/
lemma load_zipped_version_cleanup (parse : String → Except String MinecraftVersion)
    (zipOpen : String → Except String (List ZipEntry)) (ioOk : Bool)
    (version_url : String) (net : String → Option HttpResponse) :
    (load_zipped_version parse zipOpen ioOk version_url net).tmpDirExistsAfter = false := by
  rcases hnet : net version_url with _ | resp
  · simp [load_zipped_version, hnet]
  · by_cases hst : 400 ≤ resp.status ∧ resp.status ≤ 599
    · simp [load_zipped_version, hnet, errorForStatus, hst]
    · cases ioOk with
      | false => simp [load_zipped_version, hnet, errorForStatus, hst]
      | true =>
        rcases hz : zipOpen resp.body with msg | entries
        · simp [load_zipped_version, hnet, errorForStatus, hst, hz]
        · simp [load_zipped_version, hnet, errorForStatus, hst, hz]

/-- C1 (counterexample): the claim says the first `.json`-suffixed entry is
returned and later qualifying entries are skipped; on the archive
`[a.json ↦ "A", b.json ↦ "B"]` the code returns the document parsed from
`b.json`, the second qualifying entry, not the one from `a.json`. -/
theorem c1_first_match_counterexample :
    load_zipped_version_core parseId [⟨"a.json", some "A"⟩, ⟨"b.json", some "B"⟩]
      = ZipOutcome.ok ⟨"B", true⟩
    ∧ ZipOutcome.ok (⟨"B", true⟩ : MinecraftVersion) ≠ ZipOutcome.ok ⟨"A", true⟩ :=
  ⟨rfl, by decide⟩

/-- C1 (amended): for every archive containing at least one `.json`-suffixed
entry, `load_zipped_version` returns the document extracted from the last such
entry in archive enumeration order; earlier qualifying entries are not
skipped — each is read and parsed (so each must parse successfully) and its
document is overwritten by the later ones. -/
theorem c1_last_json_entry_wins (parse : String → Except String MinecraftVersion)
    (pre post : List ZipEntry) (e : ZipEntry) (s : String) (m : MinecraftVersion)
    (hpre : ∀ x ∈ pre, ends_with x.name ".json" = true →
      ∃ t v, x.content = some t ∧ parse t = Except.ok v)
    (he : ends_with e.name ".json" = true) (hc : e.content = some s)
    (hp : parse s = Except.ok m)
    (hpost : ∀ x ∈ post, ends_with x.name ".json" = false) :
    load_zipped_version_core parse (pre ++ e :: post) = ZipOutcome.ok m := by
  unfold load_zipped_version_core
  rw [findVersionInArchive_append_last parse e s m post he hc hp hpost pre none hpre]

/-- Witness for C1 (amended): on `[a.json ↦ "A", b.json ↦ "B", c.txt ↦ "C"]`
the call returns the document parsed from `b.json`. -/
theorem c1_last_json_entry_wins_witness :
    load_zipped_version_core parseId
      [⟨"a.json", some "A"⟩, ⟨"b.json", some "B"⟩, ⟨"c.txt", some "C"⟩]
      = ZipOutcome.ok ⟨"B", true⟩ :=
  c1_last_json_entry_wins parseId [⟨"a.json", some "A"⟩] [⟨"c.txt", some "C"⟩]
    ⟨"b.json", some "B"⟩ "B" ⟨"B", true⟩
    (by
      intro x hx _
      rw [List.mem_singleton] at hx
      subst hx
      exact ⟨"A", ⟨"A", true⟩, rfl, rfl⟩)
    (by decide) rfl rfl
    (by
      intro x hx
      rw [List.mem_singleton] at hx
      subst hx
      decide)

/-- C2 (counterexample): on an archive whose only entry `v.json` parses to a
document violating its semantic constraints, `load_zipped_version` returns
that document: the extracted entry is parsed but never semantically
validated. -/
theorem c2_unvalidated_document_returned :
    load_zipped_version_core parseMarked [⟨"v.json", some "X"⟩]
      = ZipOutcome.ok ⟨"X", false⟩
    ∧ MinecraftVersion.validate ⟨"X", false⟩ = false :=
  ⟨rfl, rfl⟩

/-- C2 (amended): every document returned by `load_zipped_version` is the
parse of the text read from some `.json`-suffixed entry of the archive — it is
parsed as the version-document schema, but no semantic validation is applied
before it is returned (the validation step of the sibling fetchers is absent
here, as `c2_unvalidated_document_returned` shows on a concrete archive). -/
theorem c2_parsed_not_validated (parse : String → Except String MinecraftVersion)
    (entries : List ZipEntry) (m : MinecraftVersion)
    (h : load_zipped_version_core parse entries = ZipOutcome.ok m) :
    ∃ e s, e ∈ entries ∧ ends_with e.name ".json" = true ∧ e.content = some s ∧
      parse s = Except.ok m := by
  have hf : findVersionInArchive parse entries none = .done (some m) := by
    unfold load_zipped_version_core at h
    rcases hx : findVersionInArchive parse entries none with acc | e | _ <;> rw [hx] at h
    · cases acc with
      | none => exact absurd h (by simp)
      | some v =>
        have hv : v = m := by
          have h' : ZipOutcome.ok v = ZipOutcome.ok m := h
          injection h' with h''
        rw [hv]
    · exact absurd h (by simp)
    · exact absurd h (by simp)
  rcases findVersionInArchive_done_some parse entries none m hf with h1 | h2
  · exact absurd h1 (by simp)
  · exact h2

/-- Witness for C2 (amended): the document returned from the one-entry archive
`[v.json ↦ "X"]` is the parse of the text of that entry. -/
theorem c2_parsed_not_validated_witness :
    ∃ e s, e ∈ [(⟨"v.json", some "X"⟩ : ZipEntry)] ∧ ends_with e.name ".json" = true ∧
      e.content = some s ∧ parseMarked s = Except.ok ⟨"X", false⟩ :=
  c2_parsed_not_validated parseMarked [⟨"v.json", some "X"⟩] ⟨"X", false⟩ rfl

/-- C4 (counterexample): on an archive whose `.json` entry cannot be read to a
string (truncated data or invalid UTF-8), `load_zipped_version` panics — the
`.unwrap()` on `read_to_string` — instead of surfacing an error value. -/
theorem c4_undecodable_entry_panics :
    (load_zipped_version_core parseId [⟨"v.json", none⟩]).isPanic = true
    ∧ (load_zipped_version_core parseId [⟨"v.json", none⟩]).isError = false :=
  ⟨rfl, rfl⟩

/-- C4 (amended): an archive whose `.json` entry is empty yields an
inspectable malformed-body error retaining the entry's (empty) text; an
archive whose `.json` entry cannot be decoded as text panics via `.unwrap()`
rather than returning an error value; in either case — the panic unwinds
through the `TempDir` guard — the temporary directory is not leaked. -/
theorem c4_empty_entry_error_undecodable_panics
    (parse : String → Except String MinecraftVersion) (name err : String)
    (hj : ends_with name ".json" = true) (hp : parse "" = Except.error err) :
    load_zipped_version_core parse [⟨name, some ""⟩]
      = ZipOutcome.error (FetchError.malformedBody err "")
    ∧ load_zipped_version_core parse [⟨name, none⟩] = ZipOutcome.panicked
    ∧ ∀ zipOpen ioOk url net,
        (load_zipped_version parse zipOpen ioOk url net).tmpDirExistsAfter = false := by
  refine ⟨?_, ?_, ?_⟩
  · simp only [load_zipped_version_core, findVersionInArchive, hj, if_true, hp]
  · simp only [load_zipped_version_core, findVersionInArchive, hj, if_true]
  · intro zipOpen ioOk url net
    exact load_zipped_version_cleanup parse zipOpen ioOk url net

/-- Witness for C4 (amended) with the parse function that rejects the empty
body, on the entry name `version.json`. -/
theorem c4_empty_entry_error_undecodable_panics_witness :
    load_zipped_version_core parseNonEmpty [⟨"version.json", some ""⟩]
      = ZipOutcome.error (FetchError.malformedBody "EOF while parsing a value" "")
    ∧ load_zipped_version_core parseNonEmpty [⟨"version.json", none⟩]
      = ZipOutcome.panicked
    ∧ ∀ zipOpen ioOk url net,
        (load_zipped_version parseNonEmpty zipOpen ioOk url net).tmpDirExistsAfter
          = false :=
  c4_empty_entry_error_undecodable_panics parseNonEmpty "version.json"
    "EOF while parsing a value" (by decide) rfl

/-- C10: an archive with zero entries fails exactly like an archive whose
entries all lack the `.json` suffix: with the same `anyhow` error
`Unable to find version manifest`, not a distinct error kind. -/
theorem c10_empty_archive_same_not_found (parse : String → Except String MinecraftVersion)
    (entries : List ZipEntry)
    (h : ∀ e ∈ entries, ends_with e.name ".json" = false) :
    load_zipped_version_core parse entries = load_zipped_version_core parse []
    ∧ load_zipped_version_core parse []
      = ZipOutcome.error (FetchError.notFound "Unable to find version manifest") := by
  constructor
  · unfold load_zipped_version_core
    rw [findVersionInArchive_no_json parse entries none h,
      findVersionInArchive_no_json parse [] none fun e he => absurd he (List.not_mem_nil e)]
  · rfl

/-- Witness for C10 on the archive `[readme.txt, assets.bin]`. -/
theorem c10_empty_archive_same_not_found_witness :
    load_zipped_version_core parseId [⟨"readme.txt", some "hi"⟩, ⟨"assets.bin", some "b"⟩]
      = load_zipped_version_core parseId []
    ∧ load_zipped_version_core parseId []
      = ZipOutcome.error (FetchError.notFound "Unable to find version manifest") :=
  c10_empty_archive_same_not_found parseId
    [⟨"readme.txt", some "hi"⟩, ⟨"assets.bin", some "b"⟩] (by decide)

/-- C3: every invocation of `load_zipped_version` that reaches the point where
the temporary directory is created (`TempDir::new`) removes the directory and
its contents before returning, on every exit path — early error returns,
normal return, and unwinding after the panic — because the `TempDir` guard is
dropped on each of them. -/
theorem c3_tmpdir_removed_on_every_exit (parse : String → Except String MinecraftVersion)
    (zipOpen : String → Except String (List ZipEntry)) (ioOk : Bool)
    (version_url : String) (net : String → Option HttpResponse)
    (h : (load_zipped_version parse zipOpen ioOk version_url net).tmpDirCreated = true) :
    (load_zipped_version parse zipOpen ioOk version_url net).tmpDirExistsAfter = false :=
  load_zipped_version_cleanup parse zipOpen ioOk version_url net

/-- Witness for C3: a successful extraction creates the temporary directory
and it is gone after the call. -/
theorem c3_tmpdir_removed_on_every_exit_witness :
    (load_zipped_version parseId (fun _ => Except.ok [⟨"v.json", some "A"⟩]) true
        "https://example.com/client.zip"
        (fun _ => some ⟨200, "PK", some ["client.zip"]⟩)).tmpDirCreated = true
    ∧ (load_zipped_version parseId (fun _ => Except.ok [⟨"v.json", some "A"⟩]) true
        "https://example.com/client.zip"
        (fun _ => some ⟨200, "PK", some ["client.zip"]⟩)).tmpDirExistsAfter = false :=
  ⟨rfl,
    c3_tmpdir_removed_on_every_exit parseId (fun _ => Except.ok [⟨"v.json", some "A"⟩])
      true "https://example.com/client.zip"
      (fun _ => some ⟨200, "PK", some ["client.zip"]⟩) rfl⟩

/-- C5: when the response body is not syntactically valid for the target
schema, `load_manifest` and `load_version_manifest` fail with the
malformed-body error and the retained raw body is exactly the response body
that was received. -/
theorem c5_malformed_body_retains_exact_body
    (parseM : String → Except String MojangVersionManifest)
    (parseV : String → Except String MinecraftVersion)
    (env : Option String) (version_url : String)
    (net : String → Option HttpResponse) (resp : HttpResponse) (eM eV : String)
    (hnetM : net (DownloadConfig.from_config env).manifest_url = some resp)
    (hnetV : net version_url = some resp)
    (hst : ¬(400 ≤ resp.status ∧ resp.status ≤ 599))
    (hM : parseM resp.body = Except.error eM)
    (hV : parseV resp.body = Except.error eV) :
    load_manifest parseM env net = Except.error (FetchError.malformedBody eM resp.body)
    ∧ load_version_manifest parseV version_url net
      = Except.error (FetchError.malformedBody eV resp.body) := by
  constructor
  · simp [load_manifest, hnetM, errorForStatus, hst, hM]
  · simp [load_version_manifest, hnetV, errorForStatus, hst, hV]

/-- Witness for C5 with a 200 response whose empty body fails both parsers. -/
theorem c5_malformed_body_retains_exact_body_witness :
    load_manifest parseManifestFail none (fun _ => some ⟨200, "", none⟩)
      = Except.error (FetchError.malformedBody "expected value" "")
    ∧ load_version_manifest parseNonEmpty "https://example.com/v.json"
        (fun _ => some ⟨200, "", none⟩)
      = Except.error (FetchError.malformedBody "EOF while parsing a value" "") :=
  c5_malformed_body_retains_exact_body parseManifestFail parseNonEmpty none
    "https://example.com/v.json" (fun _ => some ⟨200, "", none⟩) ⟨200, "", none⟩
    "expected value" "EOF while parsing a value" rfl rfl (by decide) rfl rfl

/-- C6: when the response body parses as the target schema but violates its
semantic constraints, `load_manifest` and `load_version_manifest` fail with
the validation error, which is not a malformed-body error. -/
theorem c6_semantic_failure_is_validation_error
    (parseM : String → Except String MojangVersionManifest)
    (parseV : String → Except String MinecraftVersion)
    (env : Option String) (version_url : String)
    (net : String → Option HttpResponse) (resp : HttpResponse)
    (manifest : MojangVersionManifest) (doc : MinecraftVersion)
    (hnetM : net (DownloadConfig.from_config env).manifest_url = some resp)
    (hnetV : net version_url = some resp)
    (hst : ¬(400 ≤ resp.status ∧ resp.status ≤ 599))
    (hM : parseM resp.body = Except.ok manifest) (hMv : manifest.validate = false)
    (hV : parseV resp.body = Except.ok doc) (hVv : doc.validate = false) :
    load_manifest parseM env net = Except.error FetchError.validation
    ∧ load_version_manifest parseV version_url net = Except.error FetchError.validation
    ∧ FetchError.validation.isMalformedBody = false := by
  refine ⟨?_, ?_, rfl⟩
  · simp [load_manifest, hnetM, errorForStatus, hst, hM, hMv]
  · simp [load_version_manifest, hnetV, errorForStatus, hst, hV, hVv]

/-- Witness for C6 with a 200 response parsing to semantically invalid
documents. -/
theorem c6_semantic_failure_is_validation_error_witness :
    load_manifest parseManifestMarked none (fun _ => some ⟨200, "sema", none⟩)
      = Except.error FetchError.validation
    ∧ load_version_manifest parseMarked "https://example.com/v.json"
        (fun _ => some ⟨200, "sema", none⟩)
      = Except.error FetchError.validation
    ∧ FetchError.validation.isMalformedBody = false :=
  c6_semantic_failure_is_validation_error parseManifestMarked parseMarked none
    "https://example.com/v.json" (fun _ => some ⟨200, "sema", none⟩) ⟨200, "sema", none⟩
    ⟨"sema", false⟩ ⟨"sema", false⟩ rfl rfl (by decide) rfl rfl rfl rfl

/-- C7 (counterexample): a 304 response has a status outside 200–299, yet
`load_manifest` does not fail with the HTTP-status error: `error_for_status`
only rejects 400–599, so the pipeline proceeds to parse the body and fails
with a malformed-body error instead. -/
theorem c7_status_304_not_http_status_error :
    ¬(200 ≤ 304 ∧ 304 ≤ 299)
    ∧ load_manifest parseManifestFail none (fun _ => some ⟨304, "", none⟩)
      = Except.error (FetchError.malformedBody "expected value" "")
    ∧ (FetchError.malformedBody "expected value" "").isHttpStatus = false :=
  ⟨by decide, rfl, rfl⟩

/-- C7 (amended): for every response whose status code is a client or server
error (400–599), each of the three operations fails with the HTTP-status
error carrying that code, regardless of the response body. -/
theorem c7_client_server_error_status_rejected
    (parseM : String → Except String MojangVersionManifest)
    (parseV : String → Except String MinecraftVersion)
    (zipOpen : String → Except String (List ZipEntry)) (ioOk : Bool)
    (env : Option String) (version_url : String) (resp : HttpResponse)
    (hs : 400 ≤ resp.status ∧ resp.status ≤ 599) :
    load_manifest parseM env (fun _ => some resp)
      = Except.error (FetchError.httpStatus resp.status)
    ∧ load_version_manifest parseV version_url (fun _ => some resp)
      = Except.error (FetchError.httpStatus resp.status)
    ∧ (load_zipped_version parseV zipOpen ioOk version_url (fun _ => some resp)).result
      = ZipOutcome.error (FetchError.httpStatus resp.status) := by
  refine ⟨?_, ?_, ?_⟩ <;>
    simp [load_manifest, load_version_manifest, load_zipped_version, errorForStatus, hs]

/-- Witness for C7 (amended) at a 404 response. -/
theorem c7_client_server_error_status_rejected_witness :
    load_manifest parseManifestId none (fun _ => some ⟨404, "Not Found", none⟩)
      = Except.error (FetchError.httpStatus 404)
    ∧ load_version_manifest parseId "https://example.com/v.json"
        (fun _ => some ⟨404, "Not Found", none⟩)
      = Except.error (FetchError.httpStatus 404)
    ∧ (load_zipped_version parseId (fun _ => Except.ok []) true
        "https://example.com/v.zip" (fun _ => some ⟨404, "Not Found", none⟩)).result
      = ZipOutcome.error (FetchError.httpStatus 404) :=
  c7_client_server_error_status_rejected parseManifestId parseId (fun _ => Except.ok [])
    true none "https://example.com/v.json" ⟨404, "Not Found", none⟩ (by decide)

/-- C8: the destination filename of the archive download is the final path
segment of the resolved response URL, with the fixed generic name `tmp.zip`
used when that segment is absent (no path segments, or an empty segment
list) or empty. -/
theorem c8_dest_filename_from_url (parse : String → Except String MinecraftVersion)
    (zipOpen : String → Except String (List ZipEntry)) (version_url : String)
    (net : String → Option HttpResponse) (resp : HttpResponse)
    (hnet : net version_url = some resp)
    (hst : ¬(400 ≤ resp.status ∧ resp.status ≤ 599)) :
    (load_zipped_version parse zipOpen true version_url net).tmpFileName
      = some (dest_fname resp)
    ∧ (∀ segs seg, resp.urlPathSegments = some segs → segs.getLast? = some seg →
        seg ≠ "" → dest_fname resp = seg)
    ∧ (resp.urlPathSegments = none → dest_fname resp = "tmp.zip")
    ∧ (∀ segs, resp.urlPathSegments = some segs → segs.getLast? = none →
        dest_fname resp = "tmp.zip")
    ∧ (∀ segs, resp.urlPathSegments = some segs → segs.getLast? = some "" →
        dest_fname resp = "tmp.zip") := by
  refine ⟨?_, ?_, ?_, ?_, ?_⟩
  · rcases hz : zipOpen resp.body with msg | entries <;>
      simp [load_zipped_version, hnet, errorForStatus, hst, hz]
  · intro segs seg h1 h2 h3
    simp [dest_fname, h1, h2, h3]
  · intro h1
    simp [dest_fname, h1]
  · intro segs h1 h2
    simp [dest_fname, h1, h2]
  · intro segs h1 h2
    simp [dest_fname, h1, h2]

/-- Witness for C8: the URL path `mc/game/client.zip` resolves to the local
filename `client.zip`. -/
theorem c8_dest_filename_from_url_witness :
    (load_zipped_version parseId (fun _ => Except.error "invalid Zip archive") true
        "https://example.com/mc/game/client.zip"
        (fun _ => some ⟨200, "PK", some ["mc", "game", "client.zip"]⟩)).tmpFileName
      = some "client.zip"
    ∧ dest_fname ⟨200, "PK", some ["mc", "game", "client.zip"]⟩ = "client.zip" :=
  ⟨(c8_dest_filename_from_url parseId (fun _ => Except.error "invalid Zip archive")
      "https://example.com/mc/game/client.zip"
      (fun _ => some ⟨200, "PK", some ["mc", "game", "client.zip"]⟩)
      ⟨200, "PK", some ["mc", "game", "client.zip"]⟩ rfl (by decide)).1,
    rfl⟩

/-- C9: `load_manifest` is a deterministic function of the environment
configuration and the remote's responses, so two invocations under the same
environment against an unchanged remote return structurally equal manifests. -/
theorem c9_manifest_fetch_deterministic
    (parse : String → Except String MojangVersionManifest) (env : Option String)
    (net : String → Option HttpResponse) (m₁ m₂ : MojangVersionManifest)
    (h₁ : load_manifest parse env net = Except.ok m₁)
    (h₂ : load_manifest parse env net = Except.ok m₂) : m₁ = m₂ := by
  rw [h₁] at h₂
  exact Except.ok.inj h₂

/-- Witness for C9: two successful fetches of the same remote manifest agree. -/
theorem c9_manifest_fetch_deterministic_witness :
    (⟨"manifest body", true⟩ : MojangVersionManifest) = ⟨"manifest body", true⟩ :=
  c9_manifest_fetch_deterministic parseManifestId none
    (fun _ => some ⟨200, "manifest body", none⟩) ⟨"manifest body", true⟩
    ⟨"manifest body", true⟩ rfl rfl
